import Mathlib

/-
Verification of the radxa-datalogger serial-logging backend.

The development shallowly embeds the Python sources of the repository:

  * backend/app/serial_manager.py  (SerialManager: discovery, reader loop,
    pause/resume, subscriber fan-out, sanitize)
  * backend/app/flash_manager.py   (FlashManager.flash)
  * backend/app/main.py            (tail helpers of the REST layer)

Conventions of the embedding:

  * Python strings are Lean String, byte buffers are List Nat (one Nat
    per byte, values below 256 in all uses), decoded text is a list of
    Unicode code points (List Nat).
  * Python dicts keyed by port id are association lists
    (List (String x Value)) looked up on the first matching key, or
    total functions String -> Bool where the source reads with a
    default (dict.get(k, False)).
  * Stateful methods become pure state-passing functions; the effectful
    reader loop body becomes a function from an iteration scenario to
    the chronological list of its observable effects.
  * Nondeterministic environment inputs (clock, serial bytes, subprocess
    results) become explicit oracle parameters.
-/

set_option autoImplicit false

namespace Datalogger

/-! ## SerialManager._sanitize_id and identity computation

Source (serial_manager.py, lines 29-31):
  re.sub(r"[^a-zA-Z0-9_-]", "_", value)
and (lines 224-226):
  port_id = self._sanitize_id(
      p.serial_number if p.serial_number else p.device.split("/")[-1])
-/

/-- Character class of the regex [^a-zA-Z0-9_-]: a character is kept
exactly when it is an ASCII letter, digit, underscore or hyphen. -/
def allowedChar (c : Char) : Bool :=
  decide (('a' ≤ c ∧ c ≤ 'z') ∨ ('A' ≤ c ∧ c ≤ 'Z') ∨ ('0' ≤ c ∧ c ≤ '9')
    ∨ c = '_' ∨ c = '-')

/-- Embedding of SerialManager._sanitize_id: every character outside the
allowed class is replaced by an underscore. -/
def sanitize_id (s : String) : String :=
  String.mk (s.data.map (fun c => if allowedChar c then c else '_'))

/-- Splitting of a character list at every slash, keeping empty
segments, as Python str.split("/") does. -/
def splitOnSlash : List Char → List (List Char)
  | [] => [[]]
  | c :: rest =>
    if c = '/' then [] :: splitOnSlash rest
    else
      match splitOnSlash rest with
      | [] => [[c]]
      | s :: ss => (c :: s) :: ss

/-- Embedding of Python value.split("/")[-1]: the last slash-separated
component (split never returns an empty list, so [-1] is total). -/
def lastPathComponent (p : String) : String :=
  String.mk ((splitOnSlash p.data).getLastD p.data)

/-- Embedding of the identity computation in
SerialManager._discover_and_start: Python truthiness of the serial
number string ("" is falsy). -/
def compute_id (serial_number device_path : String) : String :=
  if serial_number = "" then sanitize_id (lastPathComponent device_path)
  else sanitize_id serial_number

/-- Spec-side restatement of the identity computation, following the
spec words: if serial_number is non-empty, sanitize and return it; else
sanitize the last path component of device_path, where sanitization
replaces every character outside [A-Za-z0-9_-] with an underscore. -/
def spec_compute_id (serial_number device_path : String) : String :=
  if serial_number ≠ "" then
    String.mk (serial_number.data.map (fun c => if allowedChar c then c else '_'))
  else
    String.mk ((lastPathComponent device_path).data.map
      (fun c => if allowedChar c then c else '_'))

/-! ## SerialManager pause flags and subscribers

Source (serial_manager.py, lines 60-91). Pause flags are read elsewhere
with dict.get(port_id, False), so they are modeled as a total function
with default false. Subscribers are a dict from port id to a Python
list of callbacks; callbacks are opaque tokens (Nat). -/

/-- Embedding of SerialManager.resume_port: sets the pause flag of the
given port id to False (creating the entry if absent, which the total
function model absorbs). -/
def resume_port (flags : String → Bool) (port_id : String) : String → Bool :=
  fun k => if k = port_id then false else flags k

/-- Lookup of the first entry of an association list with the given key,
mirroring a Python dict access. -/
def lookupSubs (port_id : String) : List (String × List Nat) → Option (List Nat)
  | [] => none
  | (k, v) :: rest => if k = port_id then some v else lookupSubs port_id rest

/-- Replacement of the value stored under the first entry with the given
key of an association list. -/
def mapSubsEntry (port_id : String) (f : List Nat → List Nat) :
    List (String × List Nat) → List (String × List Nat)
  | [] => []
  | (k, v) :: rest =>
    if k = port_id then (k, f v) :: rest
    else (k, v) :: mapSubsEntry port_id f rest

/-- Embedding of SerialManager.unsubscribe: if the port id is a key of
the subscriber dict, remove the first occurrence of the callback from
its list; a ValueError (callback absent) is swallowed, which List.erase
models by returning the list unchanged. -/
def unsubscribe (subs : List (String × List Nat)) (port_id : String) (cb : Nat) :
    List (String × List Nat) :=
  match lookupSubs port_id subs with
  | some _ => mapSubsEntry port_id (fun l => l.erase cb) subs
  | none => subs

/-! ## Theorems for C4 and C9 -/

theorem sanitize_eq_spec (sn dp : String) : compute_id sn dp = spec_compute_id sn dp := by
  by_cases h : sn = "" <;>
    simp [compute_id, spec_compute_id, sanitize_id, h]

/-- C4: the identity computation is a total function (hence
deterministic and never failing); it agrees with the spec description
(sanitize the serial number when non-empty, else the sanitized last
path component), and on the two concrete examples: serial number
"ABC/123" yields "ABC_123" and device path "/dev/ttyACM0" with empty
serial number yields "ttyACM0". -/
theorem C4_compute_id_correct :
    (∀ sn dp : String, compute_id sn dp = spec_compute_id sn dp)
    ∧ compute_id "ABC/123" "/dev/ttyACM0" = "ABC_123"
    ∧ compute_id "" "/dev/ttyACM0" = "ttyACM0" := by
  refine ⟨sanitize_eq_spec, ?_, ?_⟩ <;> decide

theorem resume_port_idem (flags : String → Bool) (pid : String) :
    resume_port (resume_port flags pid) pid = resume_port flags pid := by
  funext k
  simp [resume_port]

theorem lookupSubs_mapSubsEntry_self (pid : String) (f : List Nat → List Nat) :
    ∀ subs : List (String × List Nat),
      lookupSubs pid (mapSubsEntry pid f subs) = (lookupSubs pid subs).map f := by
  intro subs
  induction subs with
  | nil => simp [lookupSubs, mapSubsEntry]
  | cons hd tl ih =>
    obtain ⟨k, v⟩ := hd
    by_cases h : k = pid <;> simp [lookupSubs, mapSubsEntry, h, ih]

theorem mapSubsEntry_of_lookup_fixed (pid : String) (f : List Nat → List Nat) :
    ∀ subs : List (String × List Nat), ∀ v : List Nat,
      lookupSubs pid subs = some v → f v = v → mapSubsEntry pid f subs = subs := by
  intro subs
  induction subs with
  | nil => intro v h; simp [lookupSubs] at h
  | cons hd tl ih =>
    intro v h hf
    obtain ⟨k, w⟩ := hd
    by_cases hk : k = pid
    · simp [lookupSubs, hk] at h
      simp [mapSubsEntry, hk, h ▸ hf]
    · simp [lookupSubs, hk] at h
      simp [mapSubsEntry, hk, ih v h hf]

/-- C9: resume_port is idempotent (and total, so it raises no error even
with no pause outstanding), and unsubscribe of a callback that is not in
the port's subscriber list (in particular one already removed) leaves
the subscriber table unchanged (the ValueError of list.remove is
swallowed). -/
theorem C9_resume_unsubscribe_idempotent :
    (∀ (flags : String → Bool) (pid : String),
      resume_port (resume_port flags pid) pid = resume_port flags pid)
    ∧ (∀ (subs : List (String × List Nat)) (pid : String) (cb : Nat),
        cb ∉ (lookupSubs pid subs).getD [] → unsubscribe subs pid cb = subs) := by
  constructor
  · exact resume_port_idem
  · intro subs pid cb hcb
    unfold unsubscribe
    cases h : lookupSubs pid subs with
    | none => rfl
    | some v =>
      rw [h] at hcb
      simp only [Option.getD_some] at hcb
      exact mapSubsEntry_of_lookup_fixed pid _ subs v h (List.erase_of_not_mem hcb)

/-- Closed instance of C9: applying the theorem at a concrete subscriber
table with the callback absent. -/
theorem C9_witness :
    resume_port (resume_port (fun _ => false) "p1") "p1"
        = resume_port (fun _ => false) "p1"
    ∧ unsubscribe [("p1", [7])] "p1" 3 = [("p1", [7])] := by
  exact ⟨C9_resume_unsubscribe_idempotent.1 (fun _ => false) "p1",
    C9_resume_unsubscribe_idempotent.2 [("p1", [7])] "p1" 3 (by decide)⟩

/-! ## Discovery and the port registry

Source (serial_manager.py, lines 33-44 and 221-243). A physical port
descriptor carries the fields of pyserial that the code reads; None
string fields are modeled as "". The registry is an association list
from port id to the stored record, plus the list of identities for
which a SerialReader thread has been started, in start order. -/

structure PhysPort where
  device : String
  serial_number : String
  description : String
  product : String
  vid : Option Nat
deriving DecidableEq

structure PortRec where
  device : String
  name : String
  serial_number : String
  connected : Bool
deriving DecidableEq

structure DiscState where
  ports : List (String × PortRec)
  started : List String
deriving DecidableEq

/-- Containment test for the three characters "DAP" as a contiguous
substring of a character list. -/
def hasDAPsub : List Char → Bool
  | 'D' :: 'A' :: 'P' :: _ => true
  | _ :: rest => hasDAPsub rest
  | [] => false

/-- Embedding of the qualification test of
SerialManager.discover_dap_ports: the vendor id equals 0x0D28, or the
upper-cased description-plus-product text contains "DAP". -/
def isDAP (p : PhysPort) : Bool :=
  p.vid = some 0x0D28
    || hasDAPsub ((p.description ++ " " ++ p.product).toUpper.data)

/-- Insertion of an element into a list sorted by device path. -/
def insertByDevice (p : PhysPort) : List PhysPort → List PhysPort
  | [] => [p]
  | q :: rest =>
    if p.device ≤ q.device then p :: q :: rest
    else q :: insertByDevice p rest

/-- Sorting by device path (insertion sort), mirroring
sorted(result, key=lambda x: x.device). -/
def sortByDevice : List PhysPort → List PhysPort
  | [] => []
  | p :: rest => insertByDevice p (sortByDevice rest)

/-- Embedding of SerialManager.discover_dap_ports over an oracle list of
attached devices: filter for the DAP signature, sort by device path. -/
def discover_dap_ports (comports : List PhysPort) : List PhysPort :=
  sortByDevice (comports.filter isDAP)

/-- Lookup of a port record by id, mirroring `port_id in self.ports`
followed by the dict access. -/
def lookupPort (pid : String) : List (String × PortRec) → Option PortRec
  | [] => none
  | (k, r) :: rest => if k = pid then some r else lookupPort pid rest

/-- In-place update of the device field of the record stored under the
given id, mirroring self.ports[port_id]["device"] = p.device. -/
def setDevice (pid : String) (d : String) :
    List (String × PortRec) → List (String × PortRec)
  | [] => []
  | (k, r) :: rest =>
    if k = pid then (k, { r with device := d }) :: rest
    else (k, r) :: setDevice pid d rest

/-- Record inserted for a newly discovered port, with the Python
or-chains over falsy strings made explicit. -/
def mkPortRec (p : PhysPort) : PortRec :=
  { device := p.device
    name :=
      if p.description ≠ "" then p.description
      else if p.product ≠ "" then p.product
      else "DAP (" ++ p.device ++ ")"
    serial_number := p.serial_number
    connected := false }

/-- Embedding of the per-port body of SerialManager._discover_and_start:
compute the identity; if present, update only the device path; if
unseen, insert a fresh record and start a reader thread for it. -/
def discoverStep (st : DiscState) (p : PhysPort) : DiscState :=
  match lookupPort (compute_id p.serial_number p.device) st.ports with
  | some _ =>
    { st with ports := setDevice (compute_id p.serial_number p.device) p.device st.ports }
  | none =>
    { ports := st.ports ++ [(compute_id p.serial_number p.device, mkPortRec p)]
      started := st.started ++ [compute_id p.serial_number p.device] }

/-- Embedding of one full SerialManager._discover_and_start pass over an
oracle list of attached devices. -/
def discoverPass (st : DiscState) (comports : List PhysPort) : DiscState :=
  (discover_dap_ports comports).foldl discoverStep st

/-- Iterated discovery passes, as run by start() and _discovery_loop. -/
def runPasses (st : DiscState) (scans : List (List PhysPort)) : DiscState :=
  scans.foldl discoverPass st

def keysOf (ps : List (String × PortRec)) : List String := ps.map Prod.fst

/-! ## Theorems for C5 -/

theorem lookupPort_eq_none_iff (pid : String) :
    ∀ ps : List (String × PortRec), lookupPort pid ps = none ↔ pid ∉ keysOf ps := by
  intro ps
  induction ps with
  | nil => simp [lookupPort, keysOf]
  | cons hd tl ih =>
    obtain ⟨k, r⟩ := hd
    by_cases h : k = pid
    · subst h
      simp [lookupPort, keysOf]
    · simp [lookupPort, keysOf, h, Ne.symm h, ih]

theorem keysOf_setDevice (pid d : String) :
    ∀ ps : List (String × PortRec), keysOf (setDevice pid d ps) = keysOf ps := by
  intro ps
  induction ps with
  | nil => rfl
  | cons hd tl ih =>
    obtain ⟨k, r⟩ := hd
    by_cases h : k = pid
    · simp [setDevice, keysOf, h]
    · simp only [setDevice, keysOf, h, if_false, List.map_cons, ite_false]
      exact congrArg (k :: ·) ih

theorem keysOf_append (ps : List (String × PortRec)) (e : String × PortRec) :
    keysOf (ps ++ [e]) = keysOf ps ++ [e.1] := by
  simp [keysOf]

/-- Start/registry invariant: the started-reader list is exactly the key
list of the registry, in insertion order, and has no duplicates. -/
def discInv (st : DiscState) : Prop :=
  st.started = keysOf st.ports ∧ st.started.Nodup

theorem discInv_step (st : DiscState) (p : PhysPort) :
    discInv st → discInv (discoverStep st p) := by
  rintro ⟨hk, hd⟩
  unfold discoverStep
  cases h : lookupPort (compute_id p.serial_number p.device) st.ports with
  | some r =>
    exact ⟨by rw [keysOf_setDevice, hk], hd⟩
  | none =>
    have hnot : compute_id p.serial_number p.device ∉ keysOf st.ports :=
      (lookupPort_eq_none_iff _ _).mp h
    constructor
    · rw [keysOf_append, hk]
    · rw [List.nodup_append]
      refine ⟨hd, List.nodup_singleton _, ?_⟩
      intro a ha hb
      rw [List.mem_singleton] at hb
      rw [hk] at ha
      exact hnot (hb ▸ ha)

theorem discInv_pass (st : DiscState) (comports : List PhysPort) :
    discInv st → discInv (discoverPass st comports) := by
  intro h
  unfold discoverPass
  generalize discover_dap_ports comports = l
  induction l generalizing st with
  | nil => exact h
  | cons p rest ih => exact ih _ (discInv_step st p h)

theorem discInv_runPasses (st : DiscState) (scans : List (List PhysPort)) :
    discInv st → discInv (runPasses st scans) := by
  intro h
  unfold runPasses
  induction scans generalizing st with
  | nil => exact h
  | cons s rest ih => exact ih _ (discInv_pass st s h)

/-- C5: over any sequence of discovery passes starting from the empty
registry (the state built by __init__), the list of identities for which
a reader thread has been started is exactly the key list of the registry
(a reader starts exactly when an identity is first inserted), it has no
duplicates, and hence at most one reader is ever started per identity. -/
theorem C5_one_reader_per_identity (scans : List (List PhysPort)) :
    (runPasses ⟨[], []⟩ scans).started = keysOf (runPasses ⟨[], []⟩ scans).ports
    ∧ ∀ pid : String, (runPasses ⟨[], []⟩ scans).started.count pid ≤ 1 := by
  have h := discInv_runPasses ⟨[], []⟩ scans ⟨rfl, List.nodup_nil⟩
  exact ⟨h.1, fun pid => List.nodup_iff_count_le_one.mp h.2 pid⟩

/-! ## Theorems for C6 -/

theorem lookupPort_append_of_some (pid : String) (r : PortRec) :
    ∀ (ps : List (String × PortRec)) (e : String × PortRec),
      lookupPort pid ps = some r → lookupPort pid (ps ++ [e]) = some r := by
  intro ps e h
  induction ps with
  | nil => simp [lookupPort] at h
  | cons hd tl ih =>
    obtain ⟨k, w⟩ := hd
    by_cases hk : k = pid
    · simp [lookupPort, hk] at h ⊢; exact h
    · simp [lookupPort, hk] at h ⊢; exact ih h

theorem lookupPort_setDevice_self (pid d : String) :
    ∀ ps : List (String × PortRec),
      lookupPort pid (setDevice pid d ps)
        = (lookupPort pid ps).map (fun r => { r with device := d }) := by
  intro ps
  induction ps with
  | nil => simp [lookupPort, setDevice]
  | cons hd tl ih =>
    obtain ⟨k, r⟩ := hd
    by_cases h : k = pid <;> simp [lookupPort, setDevice, h, ih]

theorem lookupPort_setDevice_other (pid q d : String) (hq : q ≠ pid) :
    ∀ ps : List (String × PortRec),
      lookupPort q (setDevice pid d ps) = lookupPort q ps := by
  intro ps
  induction ps with
  | nil => simp [setDevice]
  | cons hd tl ih =>
    obtain ⟨k, r⟩ := hd
    by_cases h : k = pid
    · have hkq : ¬ k = q := fun hkq => hq (hkq ▸ h ▸ rfl)
      simp [setDevice, lookupPort, h, hkq, Ne.symm hq]
    · by_cases h2 : k = q <;> simp [setDevice, lookupPort, h, h2, hq, ih]

theorem lookupPort_append_other (q : String) :
    ∀ (ps : List (String × PortRec)) (k : String) (r : PortRec), k ≠ q →
      lookupPort q (ps ++ [(k, r)]) = lookupPort q ps := by
  intro ps k r hk
  induction ps with
  | nil => simp [lookupPort, hk]
  | cons hd tl ih =>
    obtain ⟨k2, w⟩ := hd
    by_cases h : k2 = q <;> simp [lookupPort, h, ih]

/-- Frame part of a single step for an identity that is already present:
only the device field changes when the step handles that identity, and
nothing changes for it when the step handles another identity. -/
theorem discoverStep_frame (st : DiscState) (p : PhysPort) (pid : String) (rec : PortRec)
    (h : lookupPort pid st.ports = some rec) :
    ∃ d : String, lookupPort pid (discoverStep st p).ports = some { rec with device := d } := by
  unfold discoverStep
  cases hl : lookupPort (compute_id p.serial_number p.device) st.ports with
  | some r =>
    by_cases he : compute_id p.serial_number p.device = pid
    · refine ⟨p.device, ?_⟩
      rw [he] at hl ⊢
      rw [lookupPort_setDevice_self pid p.device st.ports, h]
      rfl
    · refine ⟨rec.device, ?_⟩
      rw [lookupPort_setDevice_other _ pid p.device (fun hq => he hq.symm) st.ports, h]
  | none =>
    refine ⟨rec.device, ?_⟩
    have hne : compute_id p.serial_number p.device ≠ pid := by
      intro he
      rw [he, h] at hl
      exact Option.noConfusion hl
    rw [lookupPort_append_other pid st.ports _ (mkPortRec p) hne, h]

theorem discoverFold_frame (pid : String) :
    ∀ (l : List PhysPort) (st : DiscState) (rec : PortRec),
      lookupPort pid st.ports = some rec →
      ∃ d : String, lookupPort pid (l.foldl discoverStep st).ports = some { rec with device := d } := by
  intro l
  induction l with
  | nil => intro st rec h; exact ⟨rec.device, by simpa using h⟩
  | cons p rest ih =>
    intro st rec h
    obtain ⟨d, hd⟩ := discoverStep_frame st p pid rec h
    obtain ⟨d2, hd2⟩ := ih (discoverStep st p) { rec with device := d } hd
    exact ⟨d2, hd2⟩

theorem discoverStep_untouched (st : DiscState) (p : PhysPort) (q : String)
    (hq : q ≠ compute_id p.serial_number p.device) :
    lookupPort q (discoverStep st p).ports = lookupPort q st.ports := by
  unfold discoverStep
  cases hl : lookupPort (compute_id p.serial_number p.device) st.ports with
  | some r =>
    exact lookupPort_setDevice_other _ q p.device hq st.ports
  | none =>
    exact lookupPort_append_other q st.ports (compute_id p.serial_number p.device)
      (mkPortRec p) (fun h => hq h.symm)

theorem discoverFold_untouched (q : String) :
    ∀ (l : List PhysPort) (st : DiscState),
      (∀ p ∈ l, q ≠ compute_id p.serial_number p.device) →
      lookupPort q (l.foldl discoverStep st).ports = lookupPort q st.ports := by
  intro l
  induction l with
  | nil => intro st _; rfl
  | cons p rest ih =>
    intro st hall
    rw [List.foldl_cons, ih (discoverStep st p) (fun r hr => hall r (List.mem_cons_of_mem p hr)),
      discoverStep_untouched st p q (hall p (List.mem_cons_self p rest))]

/-- C6: a discovery pass changes at most the device field of a record
that was already present (its name, serial number and connected flag are
those of the old record), and the record of every identity that no
qualifying port of the pass maps to is entirely unchanged. -/
theorem C6_pass_frame (st : DiscState) (comports : List PhysPort) (pid : String)
    (rec : PortRec) (h : lookupPort pid st.ports = some rec) :
    (∃ d : String, lookupPort pid (discoverPass st comports).ports
        = some { device := d, name := rec.name, serial_number := rec.serial_number,
                 connected := rec.connected })
    ∧ (∀ q : String,
        (∀ p ∈ discover_dap_ports comports, q ≠ compute_id p.serial_number p.device) →
        lookupPort q (discoverPass st comports).ports = lookupPort q st.ports) := by
  constructor
  · obtain ⟨d, hd⟩ := discoverFold_frame pid (discover_dap_ports comports) st rec h
    exact ⟨d, hd⟩
  · intro q hq
    exact discoverFold_untouched q (discover_dap_ports comports) st hq

/-- Closed instance of C6: a pass that re-discovers a known identity on
a new device path updates only the device field and leaves an unrelated
identity untouched. -/
theorem C6_witness :
    (∃ d : String,
      lookupPort "SN42"
        (discoverPass
          ⟨[("SN42", ⟨"/dev/ttyACM0", "probe", "SN42", false⟩),
            ("other", ⟨"/dev/ttyACM9", "o", "other", true⟩)], ["SN42", "other"]⟩
          [⟨"/dev/ttyACM5", "SN42", "DAP probe", "", some 0x0D28⟩]).ports
        = some ⟨d, "probe", "SN42", false⟩)
    ∧ lookupPort "other"
        (discoverPass
          ⟨[("SN42", ⟨"/dev/ttyACM0", "probe", "SN42", false⟩),
            ("other", ⟨"/dev/ttyACM9", "o", "other", true⟩)], ["SN42", "other"]⟩
          [⟨"/dev/ttyACM5", "SN42", "DAP probe", "", some 0x0D28⟩]).ports
        = some ⟨"/dev/ttyACM9", "o", "other", true⟩ := by
  have h := C6_pass_frame
    ⟨[("SN42", ⟨"/dev/ttyACM0", "probe", "SN42", false⟩),
      ("other", ⟨"/dev/ttyACM9", "o", "other", true⟩)], ["SN42", "other"]⟩
    [⟨"/dev/ttyACM5", "SN42", "DAP probe", "", some 0x0D28⟩]
    "SN42" ⟨"/dev/ttyACM0", "probe", "SN42", false⟩ (by decide)
  exact ⟨h.1, h.2 "other" (by decide)⟩

/-! ## Line framing of the reader loop

Source (serial_manager.py, lines 163-175):
  while b"\n" in buf:
      idx = buf.index(b"\n")
      raw_line = bytes(buf[:idx])
      del buf[:idx + 1]
      line = raw_line.decode("latin-1").rstrip("\r")
      if not line:
          continue
Bytes are Nat (below 256 in use). decode("latin-1") is total and maps
byte b to code point b, so framed lines are kept as byte lists and the
decode step is the identity map on code points. -/

/-- Latin-1 decoding of one byte: the code point equals the byte value;
the decode step of the source never fails on any byte. -/
def latin1Cp (b : Nat) : Nat := b

/-- Embedding of Python str.rstrip("\r"): removes every trailing
carriage return (code point 13). -/
def rstripCR (l : List Nat) : List Nat :=
  (l.reverse.dropWhile (fun b => decide (b = 13))).reverse

/-- First split of a buffer at a newline byte, mirroring
idx = buf.index(b"\n"); buf[:idx] and buf[idx+1:]; none when the buffer
holds no newline. -/
def splitAtNL : List Nat → Option (List Nat × List Nat)
  | [] => none
  | b :: rest =>
    if b = 10 then some ([], rest)
    else (splitAtNL rest).map (fun pr => (b :: pr.1, pr.2))

/-- Embedding of the framing loop: repeatedly take the part before the
first newline, decode it (latin-1, identity on code points), strip
trailing carriage returns, drop the line if it became empty; returns
the extracted lines in order and the leftover buffer. The fuel argument
only bounds the recursion; buf.length suffices since every round
consumes at least the newline byte. -/
def extractGo : Nat → List Nat → List (List Nat) × List Nat
  | 0, buf => ([], buf)
  | fuel + 1, buf =>
    match splitAtNL buf with
    | none => ([], buf)
    | some pr =>
      (if rstripCR pr.1 = [] then (extractGo fuel pr.2).1
       else rstripCR pr.1 :: (extractGo fuel pr.2).1,
       (extractGo fuel pr.2).2)

/-- Framing of all complete lines currently in the buffer. -/
def extractLines (buf : List Nat) : List (List Nat) × List Nat :=
  extractGo buf.length buf

/-- Spec-side split of the buffer at every newline; the last segment is
the incomplete trailing part. -/
def splitOnNL : List Nat → List (List Nat)
  | [] => [[]]
  | b :: rest =>
    if b = 10 then [] :: splitOnNL rest
    else
      match splitOnNL rest with
      | [] => [[b]]
      | s :: ss => (b :: s) :: ss

/-- Spec-side description of framing: every newline-terminated segment,
in order, with trailing carriage returns trimmed and empty results
dropped. -/
def specLines (buf : List Nat) : List (List Nat) :=
  ((splitOnNL buf).dropLast.map rstripCR).filter (fun l => decide (l ≠ []))

/-- Last element of a list of segments, with a default for the empty
list (which splitOnNL never returns). -/
def lastD (d : List Nat) : List (List Nat) → List Nat
  | [] => d
  | [x] => x
  | _ :: rest => lastD d rest

/-- Spec-side leftover: the part of the buffer after the last newline. -/
def specRest (buf : List Nat) : List Nat :=
  lastD [] (splitOnNL buf)

/-! ## Theorems for C8 -/

theorem splitAtNL_eq_none (buf : List Nat) : splitAtNL buf = none ↔ 10 ∉ buf := by
  induction buf with
  | nil => simp [splitAtNL]
  | cons b rest ih =>
    by_cases hb : b = 10
    · subst hb; simp [splitAtNL]
    · simp [splitAtNL, hb, Option.map_eq_none, ih, Ne.symm hb]

theorem splitAtNL_eq_some :
    ∀ buf pre post : List Nat, splitAtNL buf = some (pre, post) →
      buf = pre ++ 10 :: post ∧ 10 ∉ pre := by
  intro buf
  induction buf with
  | nil => intro pre post h; simp [splitAtNL] at h
  | cons b rest ih =>
    intro pre post h
    by_cases hb : b = 10
    · subst hb
      simp [splitAtNL] at h
      obtain ⟨h1, h2⟩ := h
      subst h1; subst h2
      simp
    · simp only [splitAtNL, hb, ite_false] at h
      rcases Option.map_eq_some'.mp h with ⟨pr, hpr, heq⟩
      obtain ⟨p1, p2⟩ := pr
      obtain ⟨hb2, hnm⟩ := ih p1 p2 hpr
      cases heq
      subst hb2
      exact ⟨by simp, by simp [hnm, Ne.symm hb]⟩

theorem splitOnNL_ne_nil : ∀ buf : List Nat, splitOnNL buf ≠ [] := by
  intro buf
  cases buf with
  | nil => simp [splitOnNL]
  | cons b rest =>
    by_cases hb : b = 10
    · simp [splitOnNL, hb]
    · simp only [splitOnNL, hb, ite_false]
      cases h : splitOnNL rest <;> simp

theorem splitOnNL_no_nl : ∀ buf : List Nat, 10 ∉ buf → splitOnNL buf = [buf] := by
  intro buf
  induction buf with
  | nil => intro _; rfl
  | cons b rest ih =>
    intro h
    have hb : ¬ b = 10 := fun hb => h (hb ▸ List.mem_cons_self b rest)
    have h2 : 10 ∉ rest := fun hm => h (List.mem_cons_of_mem b hm)
    simp only [splitOnNL, hb, ite_false, ih h2]

theorem splitOnNL_append :
    ∀ pre post : List Nat, 10 ∉ pre →
      splitOnNL (pre ++ 10 :: post) = pre :: splitOnNL post := by
  intro pre
  induction pre with
  | nil => intro post _; simp [splitOnNL]
  | cons a pre2 ih =>
    intro post h
    have ha : ¬ a = 10 := fun hb => h (hb ▸ List.mem_cons_self a pre2)
    have h2 : 10 ∉ pre2 := fun hm => h (List.mem_cons_of_mem a hm)
    simp only [List.cons_append, splitOnNL, ha, ite_false, List.append_eq, ih post h2]

theorem lastD_cons_of_ne_nil (pre : List Nat) (l : List (List Nat)) (h : l ≠ []) :
    lastD [] (pre :: l) = lastD [] l := by
  cases l with
  | nil => exact absurd rfl h
  | cons a rest => rfl

theorem specLines_step (pre post : List Nat) (h : 10 ∉ pre) :
    specLines (pre ++ 10 :: post)
      = (if rstripCR pre = [] then [] else [rstripCR pre]) ++ specLines post := by
  unfold specLines
  rw [splitOnNL_append pre post h]
  cases hl : splitOnNL post with
  | nil => exact absurd hl (splitOnNL_ne_nil post)
  | cons s ss =>
    simp only [List.dropLast_cons₂, List.map_cons, List.filter_cons]
    by_cases he : rstripCR pre = [] <;> simp [he]

theorem specRest_step (pre post : List Nat) (h : 10 ∉ pre) :
    specRest (pre ++ 10 :: post) = specRest post := by
  unfold specRest
  rw [splitOnNL_append pre post h]
  exact lastD_cons_of_ne_nil pre _ (splitOnNL_ne_nil post)

theorem extractGo_succ_none (fuel : Nat) (buf : List Nat) (h : splitAtNL buf = none) :
    extractGo (fuel + 1) buf = ([], buf) := by
  unfold extractGo
  rw [h]

theorem extractGo_succ_some (fuel : Nat) (buf pre post : List Nat)
    (h : splitAtNL buf = some (pre, post)) :
    extractGo (fuel + 1) buf =
      (if rstripCR pre = [] then (extractGo fuel post).1
       else rstripCR pre :: (extractGo fuel post).1,
       (extractGo fuel post).2) := by
  conv_lhs => rw [extractGo]
  rw [h]

theorem specLines_no_nl (buf : List Nat) (h : 10 ∉ buf) :
    specLines buf = [] ∧ specRest buf = buf := by
  constructor
  · unfold specLines
    rw [splitOnNL_no_nl buf h]
    simp
  · unfold specRest
    rw [splitOnNL_no_nl buf h]
    rfl

theorem extractGo_eq_spec :
    ∀ (fuel : Nat) (buf : List Nat), buf.length ≤ fuel →
      extractGo fuel buf = (specLines buf, specRest buf) := by
  intro fuel
  induction fuel with
  | zero =>
    intro buf h
    have hb : buf = [] := List.length_eq_zero.mp (Nat.le_zero.mp h)
    subst hb
    simp [extractGo, specLines, specRest, splitOnNL, lastD]
  | succ n ih =>
    intro buf h
    cases hs : splitAtNL buf with
    | none =>
      have h10 : 10 ∉ buf := (splitAtNL_eq_none buf).mp hs
      obtain ⟨h1, h2⟩ := specLines_no_nl buf h10
      rw [extractGo_succ_none n buf hs, h1, h2]
    | some pr =>
      obtain ⟨pre, post⟩ := pr
      obtain ⟨hbuf, hnm⟩ := splitAtNL_eq_some buf pre post hs
      subst hbuf
      have hlen : post.length ≤ n := by
        rw [List.length_append, List.length_cons] at h
        omega
      rw [extractGo_succ_some n _ pre post hs, ih post hlen,
        specLines_step pre post hnm, specRest_step pre post hnm]
      by_cases he : rstripCR pre = [] <;> simp [he]

/-- C8 (amended): line framing is total and lossless — every complete
newline-terminated line is extracted in order, ALL trailing carriage
returns are trimmed from it (Python rstrip removes every trailing
backslash-r, not exactly one), lines that become empty are dropped
silently, the leftover buffer is exactly the part after the last
newline, and latin-1 decoding never fails on any byte value: every byte
(UTF-8-decodable or not) is mapped injectively to a code point, so no
data is lost. -/
theorem C8_framing_lossless :
    (∀ buf : List Nat, extractLines buf = (specLines buf, specRest buf))
    ∧ Function.Injective latin1Cp
    ∧ (∀ b : Nat, latin1Cp b = b) := by
  refine ⟨fun buf => extractGo_eq_spec buf.length buf le_rfl, fun a b h => h, fun b => rfl⟩

/-- Closed instance of C8: the framing of a concrete buffer ("hi",
newline, carriage return, newline, then an incomplete "x") matches the
spec-side description, and byte 200 (undecodable as UTF-8) decodes to
code point 200. -/
theorem C8_witness :
    extractLines [104, 105, 10, 13, 10, 120]
      = (specLines [104, 105, 10, 13, 10, 120], specRest [104, 105, 10, 13, 10, 120])
    ∧ latin1Cp 200 = 200 :=
  ⟨C8_framing_lossless.1 [104, 105, 10, 13, 10, 120], C8_framing_lossless.2.2 200⟩

/-- Counterexample to C8 as stated: on the byte sequence
"a backslash-r backslash-r backslash-n" the code extracts "a" (both
trailing carriage returns trimmed), not "a backslash-r" (exactly one
trimmed) as the claim requires. -/
theorem C8_counterexample :
    (extractLines [97, 13, 13, 10]).1 = [[97]]
    ∧ ([[97]] : List (List Nat)) ≠ [[97, 13]] := by
  exact ⟨by decide, by decide⟩

/-! ## Tail reading of the log files

Source (main.py, lines 73-114): _tail_lines reads the file backwards in
blocks of 8192 bytes, decodes each block with utf-8/replace, applies
str.splitlines per block and prepends, stopping once more than n lines
were collected; tail_logs walks the day files newest first. File
contents are byte lists; decoded text is a code-point list. -/

def isCont (b : Nat) : Bool := decide (0x80 ≤ b ∧ b < 0xC0)

/-- Valid second byte of a three-byte UTF-8 sequence (E0 and ED restrict
the range to exclude overlong encodings and surrogates). -/
def cont3ok (b b2 : Nat) : Bool :=
  if b = 0xE0 then decide (0xA0 ≤ b2 ∧ b2 < 0xC0)
  else if b = 0xED then decide (0x80 ≤ b2 ∧ b2 < 0xA0)
  else isCont b2

/-- Valid second byte of a four-byte UTF-8 sequence (F0 and F4 restrict
the range to exclude overlong encodings and values above U+10FFFF). -/
def cont4ok (b b2 : Nat) : Bool :=
  if b = 0xF0 then decide (0x90 ≤ b2 ∧ b2 < 0xC0)
  else if b = 0xF4 then decide (0x80 ≤ b2 ∧ b2 < 0x90)
  else isCont b2

/-- UTF-8 decoding with replacement, as bytes.decode("utf-8",
errors="replace") does: valid sequences decode to their code point, an
invalid or truncated sequence contributes one U+FFFD for its maximal
valid prefix and decoding resumes at the offending byte. The fuel only
bounds the recursion; the byte-list length suffices since every round
consumes at least one byte. -/
def u8Go : Nat → List Nat → List Nat
  | 0, _ => []
  | _ + 1, [] => []
  | fuel + 1, b :: rest =>
    if b < 0x80 then b :: u8Go fuel rest
    else if decide (0xC2 ≤ b ∧ b ≤ 0xDF) then
      match rest with
      | [] => [0xFFFD]
      | b2 :: rest2 =>
        if isCont b2 then ((b - 0xC0) * 64 + (b2 - 0x80)) :: u8Go fuel rest2
        else 0xFFFD :: u8Go fuel rest
    else if decide (0xE0 ≤ b ∧ b ≤ 0xEF) then
      match rest with
      | [] => [0xFFFD]
      | b2 :: rest2 =>
        if cont3ok b b2 then
          match rest2 with
          | [] => [0xFFFD]
          | b3 :: rest3 =>
            if isCont b3 then
              ((b - 0xE0) * 4096 + (b2 - 0x80) * 64 + (b3 - 0x80)) :: u8Go fuel rest3
            else 0xFFFD :: u8Go fuel rest2
        else 0xFFFD :: u8Go fuel rest
    else if decide (0xF0 ≤ b ∧ b ≤ 0xF4) then
      match rest with
      | [] => [0xFFFD]
      | b2 :: rest2 =>
        if cont4ok b b2 then
          match rest2 with
          | [] => [0xFFFD]
          | b3 :: rest3 =>
            if isCont b3 then
              match rest3 with
              | [] => [0xFFFD]
              | b4 :: rest4 =>
                if isCont b4 then
                  ((b - 0xF0) * 262144 + (b2 - 0x80) * 4096 + (b3 - 0x80) * 64
                    + (b4 - 0x80)) :: u8Go fuel rest4
                else 0xFFFD :: u8Go fuel rest3
            else 0xFFFD :: u8Go fuel rest2
        else 0xFFFD :: u8Go fuel rest
    else 0xFFFD :: u8Go fuel rest

def decodeU8R (bs : List Nat) : List Nat := u8Go bs.length bs

/-- Line-break set of Python str.splitlines. -/
def isLineBreakCp (c : Nat) : Bool :=
  c == 10 || c == 11 || c == 12 || c == 13 || c == 28 || c == 29 || c == 30
    || c == 133 || c == 8232 || c == 8233

/-- Worker of str.splitlines: one pass over the code points; the afterCR
flag folds a carriage-return/newline pair into a single break; no
trailing empty line is produced for a terminated text. -/
def slGo : List Nat → Bool → List Nat → List (List Nat)
  | [], _, acc => if acc.isEmpty then [] else [acc.reverse]
  | c :: rest, afterCR, acc =>
    if afterCR && (c == 10) then slGo rest false acc
    else if c = 13 then acc.reverse :: slGo rest true []
    else if isLineBreakCp c then acc.reverse :: slGo rest false []
    else slGo rest false (c :: acc)

/-- Embedding of Python str.splitlines. -/
def splitlinesPy (s : List Nat) : List (List Nat) := slGo s false []

/-- Embedding of the Python slice lines[-n:], which is the whole list
for n = 0 (lines[-0:] is lines[0:]). -/
def pySliceLast (l : List (List Nat)) (n : Nat) : List (List Nat) :=
  if n = 0 then l else l.drop (l.length - n)

/-- Embedding of the backwards block-reading loop of _tail_lines:
while remaining > 0 and len(lines) <= n, read the previous block of
8192 bytes, decode it, splitlines it and prepend; afterwards keep the
last n lines. The fuel only bounds the recursion; the initial value of
remaining suffices since every round decreases remaining. -/
def tailGo (content : List Nat) (n : Nat) : Nat → Nat → List (List Nat) → List (List Nat)
  | 0, _, lines => pySliceLast lines n
  | fuel + 1, remaining, lines =>
    if 0 < remaining ∧ lines.length ≤ n then
      tailGo content n fuel (remaining - min 8192 remaining)
        (splitlinesPy
          (decodeU8R ((content.drop (remaining - min 8192 remaining)).take (min 8192 remaining)))
          ++ lines)
    else pySliceLast lines n

/-- Embedding of _tail_lines over the file content (an absent or empty
file yields []). -/
def tail_lines (content : List Nat) (n : Nat) : List (List Nat) :=
  if content.length = 0 then []
  else tailGo content n content.length content.length []

/-- Worker of the per-file loop of tail_logs: day files are visited
newest first, each contributing its last remaining lines, prepended. -/
def tailLogsGo : List (List Nat) → Nat → List (List Nat) → List (List Nat)
  | [], _, result => result
  | f :: rest, remaining, result =>
    if remaining = 0 then result
    else tailLogsGo rest (remaining - (tail_lines f remaining).length)
      (tail_lines f remaining ++ result)

/-- Embedding of the tail_logs endpoint body over the day-file contents
in chronological order: returns the reported lines and total. -/
def tail_logs (files : List (List Nat)) (n : Nat) : List (List Nat) × Nat :=
  (pySliceLast (tailLogsGo files.reverse n []) n, (tailLogsGo files.reverse n []).length)

/-- Spec-side lines of a file: the splitlines of its whole decoded
content (the lines L1..Lk in write order). -/
def fileLines (content : List Nat) : List (List Nat) :=
  splitlinesPy (decodeU8R content)

/-- Spec-side description of the tail operation, from the claim: exactly
the last n lines in their original order. -/
def specLastN (content : List Nat) (n : Nat) : List (List Nat) :=
  (fileLines content).drop ((fileLines content).length - n)

/-- Concatenation of newline-terminated segments. -/
def mkNL (segs : List (List Nat)) : List Nat :=
  (segs.map (fun s => s ++ [10])).flatten

/-- Failing input for the tail operation: 4098 newline-terminated lines
("q", "q", "ab", then 4095 times "x") totalling 8197 bytes, so that the
8192-byte block boundary falls inside the line "ab". -/
def c3file : List Nat :=
  [113, 10, 113, 10, 97, 98, 10] ++ (List.replicate 4095 [120, 10]).flatten

/-! ## Theorems for C3 -/

theorem u8Go_ascii :
    ∀ (fuel : Nat) (bs : List Nat), bs.length ≤ fuel → (∀ b ∈ bs, b < 128) →
      u8Go fuel bs = bs := by
  intro fuel
  induction fuel with
  | zero =>
    intro bs h _
    have hb : bs = [] := List.length_eq_zero.mp (Nat.le_zero.mp h)
    subst hb
    rfl
  | succ n ih =>
    intro bs h hall
    cases bs with
    | nil => rfl
    | cons b rest =>
      have hb : b < 128 := hall b (List.mem_cons_self b rest)
      have hrest : ∀ x ∈ rest, x < 128 := fun x hx => hall x (List.mem_cons_of_mem b hx)
      have hlen : rest.length ≤ n := by
        rw [List.length_cons] at h
        omega
      simp only [u8Go]
      rw [if_pos hb, ih rest hlen hrest]

theorem decodeU8R_ascii (bs : List Nat) (h : ∀ b ∈ bs, b < 128) : decodeU8R bs = bs :=
  u8Go_ascii bs.length bs le_rfl h

theorem slGo_plain_seg :
    ∀ (seg rest acc : List Nat), (∀ c ∈ seg, isLineBreakCp c = false) →
      slGo (seg ++ rest) false acc = slGo rest false (seg.reverse ++ acc) := by
  intro seg
  induction seg with
  | nil => intro rest acc _; simp
  | cons c seg2 ih =>
    intro rest acc hall
    have hc : isLineBreakCp c = false := hall c (List.mem_cons_self c seg2)
    have h13 : ¬ c = 13 := by
      intro h
      subst h
      simp [isLineBreakCp] at hc
    rw [List.cons_append]
    rw [show slGo (c :: (seg2 ++ rest)) false acc = slGo (seg2 ++ rest) false (c :: acc) from by
      simp [slGo, h13, hc]]
    rw [ih rest (c :: acc) (fun x hx => hall x (List.mem_cons_of_mem c hx))]
    simp [List.reverse_cons, List.append_assoc]

theorem slGo_nl (rest acc : List Nat) :
    slGo (10 :: rest) false acc = acc.reverse :: slGo rest false [] := by
  simp [slGo, isLineBreakCp]

theorem mkNL_cons (s : List Nat) (segs : List (List Nat)) :
    mkNL (s :: segs) = s ++ 10 :: mkNL segs := by
  simp [mkNL]

theorem slGo_mkNL :
    ∀ (segs : List (List Nat)) (t : List Nat),
      (∀ s ∈ segs, ∀ c ∈ s, isLineBreakCp c = false) →
      slGo (mkNL segs ++ t) false [] = segs ++ slGo t false [] := by
  intro segs
  induction segs with
  | nil => intro t _; simp [mkNL]
  | cons s segs2 ih =>
    intro t hall
    rw [mkNL_cons, List.append_assoc, List.cons_append]
    rw [slGo_plain_seg s _ [] (hall s (List.mem_cons_self s segs2))]
    rw [slGo_nl]
    rw [ih t (fun x hx => hall x (List.mem_cons_of_mem s hx))]
    simp

theorem splitlinesPy_mkNL (segs : List (List Nat))
    (h : ∀ s ∈ segs, ∀ c ∈ s, isLineBreakCp c = false) :
    splitlinesPy (mkNL segs) = segs := by
  have h2 := slGo_mkNL segs [] h
  rw [List.append_nil] at h2
  unfold splitlinesPy
  rw [h2]
  simp [slGo]

theorem length_flatten_replicate (k : Nat) (l : List Nat) :
    (List.flatten (List.replicate k l)).length = k * l.length := by
  simp [List.length_flatten, List.map_replicate, List.sum_replicate, smul_eq_mul]

theorem c3file_length : c3file.length = 8197 := by
  rw [c3file]
  rw [List.length_append, length_flatten_replicate]
  norm_num

theorem c3file_eq_mkNL :
    c3file = mkNL ([113] :: [113] :: [97, 98] :: List.replicate 4095 [120]) := by
  rw [mkNL, List.map_cons, List.map_cons, List.map_cons, List.map_replicate,
    List.flatten_cons, List.flatten_cons, List.flatten_cons,
    show ([120] ++ [10] : List Nat) = [120, 10] from rfl, c3file]
  simp only [List.cons_append, List.nil_append, List.append_assoc]

theorem drop5_c3file : c3file.drop 5 = mkNL ([98] :: List.replicate 4095 [120]) := by
  rw [c3file, mkNL, List.map_cons, List.map_replicate, List.flatten_cons,
    show ([120] ++ [10] : List Nat) = [120, 10] from rfl]
  rfl

theorem take5_c3file : c3file.take 5 = [113, 10, 113, 10, 97] := by
  rw [c3file]
  rfl

theorem ascii_c3file : ∀ b ∈ c3file, b < 128 := by
  intro b hb
  rcases List.mem_append.mp hb with h | h
  · fin_cases h <;> norm_num
  · rw [List.mem_flatten] at h
    obtain ⟨l, hl, hbl⟩ := h
    rw [List.eq_of_mem_replicate hl] at hbl
    fin_cases hbl <;> norm_num

theorem plain_replicate (k : Nat) :
    ∀ s ∈ List.replicate k ([120] : List Nat), ∀ c ∈ s, isLineBreakCp c = false := by
  intro s hs c hc
  rw [List.eq_of_mem_replicate hs] at hc
  simp at hc
  subst hc
  rfl

theorem plain_segs0 :
    ∀ s ∈ ([113] :: [113] :: [97, 98] :: List.replicate 4095 ([120] : List Nat)),
      ∀ c ∈ s, isLineBreakCp c = false := by
  intro s hs
  simp only [List.mem_cons] at hs
  rcases hs with rfl | rfl | rfl | hs
  · intro c hc; simp at hc; subst hc; rfl
  · intro c hc; simp at hc; subst hc; rfl
  · intro c hc; simp at hc; rcases hc with rfl | rfl <;> rfl
  · exact plain_replicate 4095 s hs

theorem plain_block :
    ∀ s ∈ ([98] :: List.replicate 4095 ([120] : List Nat)),
      ∀ c ∈ s, isLineBreakCp c = false := by
  intro s hs
  simp only [List.mem_cons] at hs
  rcases hs with rfl | hs
  · intro c hc; simp at hc; subst hc; rfl
  · exact plain_replicate 4095 s hs

theorem tailGo_succ (content : List Nat) (n fuel remaining : Nat) (lines : List (List Nat)) :
    tailGo content n (fuel + 1) remaining lines =
      if 0 < remaining ∧ lines.length ≤ n then
        tailGo content n fuel (remaining - min 8192 remaining)
          (splitlinesPy
            (decodeU8R ((content.drop (remaining - min 8192 remaining)).take (min 8192 remaining)))
            ++ lines)
      else pySliceLast lines n := rfl

theorem tailGo_step_read (content : List Nat) (n fuel remaining : Nat)
    (lines : List (List Nat)) (hr : 0 < remaining) (hl : lines.length ≤ n) :
    tailGo content n (fuel + 1) remaining lines =
      tailGo content n fuel (remaining - min 8192 remaining)
        (splitlinesPy
          (decodeU8R ((content.drop (remaining - min 8192 remaining)).take (min 8192 remaining)))
          ++ lines) := by
  rw [tailGo_succ, if_pos ⟨hr, hl⟩]

theorem tailGo_step_stop (content : List Nat) (n fuel remaining : Nat)
    (lines : List (List Nat)) (h : ¬ (0 < remaining ∧ lines.length ≤ n)) :
    tailGo content n (fuel + 1) remaining lines = pySliceLast lines n := by
  rw [tailGo_succ, if_neg h]

theorem tailLines_c3 :
    tail_lines c3file 4097 = [97] :: [98] :: List.replicate 4095 [120] := by
  have hascii : ∀ b ∈ mkNL ([98] :: List.replicate 4095 ([120] : List Nat)), b < 128 := by
    intro b hb
    rw [← drop5_c3file] at hb
    exact ascii_c3file b (List.drop_subset 5 c3file hb)
  have hle2 : ([98] :: List.replicate 4095 ([120] : List Nat)).length ≤ 4097 := by
    rw [List.length_cons, List.length_replicate]
    norm_num
  have hL : (([[113], [113], [97]] : List (List Nat)) ++
      ([98] :: List.replicate 4095 [120])).length = 4099 := by
    rw [List.length_append,
      show ([[113], [113], [97]] : List (List Nat)).length = 3 from rfl,
      List.length_cons, List.length_replicate]
  unfold tail_lines
  rw [c3file_length]
  rw [if_neg (by norm_num : ¬ (8197 = 0))]
  rw [show (8197 : Nat) = 8196 + 1 from rfl]
  rw [tailGo_step_read _ _ _ _ _ (by norm_num) (by simp)]
  rw [show (8196 + 1 - min 8192 (8196 + 1) : Nat) = 5 from rfl]
  rw [show (min 8192 (8196 + 1) : Nat) = 8192 from rfl]
  have hdlen : (c3file.drop 5).length ≤ 8192 := by
    rw [List.length_drop, c3file_length]
  rw [List.take_of_length_le hdlen, drop5_c3file]
  rw [decodeU8R_ascii _ hascii]
  rw [splitlinesPy_mkNL _ plain_block, List.append_nil]
  rw [show (8196 : Nat) = 8195 + 1 from rfl]
  rw [tailGo_step_read _ _ _ _ _ (by norm_num) hle2]
  rw [show (5 - min 8192 5 : Nat) = 0 from rfl]
  rw [show (min 8192 5 : Nat) = 5 from rfl]
  rw [List.drop_zero, take5_c3file]
  rw [decodeU8R_ascii _ (by decide)]
  rw [show splitlinesPy [113, 10, 113, 10, 97] = [[113], [113], [97]] from rfl]
  rw [show (8195 : Nat) = 8194 + 1 from rfl]
  rw [tailGo_step_stop _ _ _ _ _ (fun hc => absurd hc.1 (lt_irrefl 0))]
  unfold pySliceLast
  rw [if_neg (by norm_num : ¬ (4097 = 0))]
  rw [hL]
  rw [show (4099 - 4097 : Nat) = 2 from rfl]
  rfl

theorem fileLines_c3 :
    fileLines c3file = [113] :: [113] :: [97, 98] :: List.replicate 4095 [120] := by
  unfold fileLines
  rw [decodeU8R_ascii c3file ascii_c3file, c3file_eq_mkNL, splitlinesPy_mkNL _ plain_segs0]

theorem specLastN_c3 :
    specLastN c3file 4097 = [113] :: [97, 98] :: List.replicate 4095 [120] := by
  have hL : ([113] :: [113] :: [97, 98] ::
      List.replicate 4095 ([120] : List Nat)).length = 4098 := by
    rw [List.length_cons, List.length_cons, List.length_cons, List.length_replicate]
  unfold specLastN
  rw [fileLines_c3, hL]
  rw [show (4098 - 4097 : Nat) = 1 from rfl]
  rfl

theorem tailLogsGo_cons (f : List Nat) (rest : List (List Nat)) (remaining : Nat)
    (result : List (List Nat)) :
    tailLogsGo (f :: rest) remaining result =
      if remaining = 0 then result
      else tailLogsGo rest (remaining - (tail_lines f remaining).length)
        (tail_lines f remaining ++ result) := rfl

/-- C3 evaluated at the failing input: on a single day file of 4098
lines whose line "ab" straddles the 8192-byte block boundary, the tail
endpoint asked for the last 4097 lines returns "a" and "b" as two
separate lines (the straddled line is split and the true line "q" before
it is lost), which differs from the specified result, the last 4097
lines "q", "ab", "x"... in order. -/
theorem C3_tail_splits_line_at_block_boundary :
    (tail_logs [c3file] 4097).1 = [97] :: [98] :: List.replicate 4095 [120]
    ∧ specLastN c3file 4097 = [113] :: [97, 98] :: List.replicate 4095 [120]
    ∧ (tail_logs [c3file] 4097).1 ≠ specLastN c3file 4097 := by
  have hlen : ([97] :: [98] :: List.replicate 4095 ([120] : List Nat)).length = 4097 := by
    rw [List.length_cons, List.length_cons, List.length_replicate]
  have hgo : tailLogsGo [c3file] 4097 [] = [97] :: [98] :: List.replicate 4095 [120] := by
    rw [tailLogsGo_cons, if_neg (by norm_num : ¬ (4097 = 0)), tailLines_c3]
    rw [List.append_nil]
    rfl
  have h1 : (tail_logs [c3file] 4097).1 = [97] :: [98] :: List.replicate 4095 [120] := by
    unfold tail_logs
    rw [show ([c3file].reverse) = [c3file] from rfl, hgo]
    unfold pySliceLast
    rw [if_neg (by norm_num : ¬ (4097 = 0)), hlen]
    rw [show (4097 - 4097 : Nat) = 0 from rfl, List.drop_zero]
  refine ⟨h1, specLastN_c3, ?_⟩
  rw [h1, specLastN_c3]
  intro h
  have h2 := List.head_eq_of_cons_eq h
  exact absurd h2 (by decide)

/-! ## FlashManager.flash

Source (flash_manager.py, lines 86-189). The serial-manager state that
the method can reach (ports registry, pause flags, subscribers) is
passed and returned explicitly; the method only reads ports.get under
the lock and never writes the manager state, so every branch returns it
unchanged. The subprocess result is an oracle parameter; the effects
trace records the external calls actually made. Single quote characters
of the original Portuguese error messages are omitted. -/

structure MgrState where
  ports : List (String × PortRec)
  pause_flags : String → Bool
  subscribers : List (String × List Nat)

inductive FlashEff where
  | pauseCall (pid : String)
  | runPyocd (cmd : List String)
  | resumeCall (pid : String)
deriving DecidableEq

structure FlashResult where
  success : Bool
  output : String
  error : String
  command : Option String
deriving DecidableEq

/-- Outcome of the subprocess.run invocation: normal completion with a
return code, the 180 s timeout, a missing pyocd binary, or any other
exception with its message. -/
inductive RunOutcome where
  | completed (returncode : Int) (stdout stderr : String)
  | timedOut
  | fileNotFound
  | raised (msg : String)

/-- Python "value or default" over an optional string ("" is falsy). -/
def pyOr (v : Option String) (d : String) : String :=
  match v with
  | some s => if s = "" then d else s
  | none => d

/-- Embedding of " ".join(cmd). -/
def joinSpace : List String → String
  | [] => ""
  | [s] => s
  | s :: rest => s ++ " " ++ joinSpace rest

/-- Embedding of FlashManager.flash: validate the port id and its
serial number, build the pyocd command (appending --pack only for a
truthy pack path), run it, and map each failure of the subprocess to an
error result; the pause_port/resume_port calls are commented out in the
source, so no pause or resume effect is ever emitted. -/
def flash (st : MgrState) (port_id hex_path : String)
    (pack_path target frequency : Option String) (defTarget defFreq : String)
    (outcome : RunOutcome) : MgrState × FlashResult × List FlashEff :=
  match lookupPort port_id st.ports with
  | none =>
    (st, { success := false, output := "",
           error := "Porta " ++ port_id ++ " nao encontrada", command := none }, [])
  | some info =>
    if info.serial_number = "" then
      (st, { success := false, output := "",
             error := "Sem serial number para " ++ port_id
               ++ ". Nao e possivel identificar o probe.",
             command := none }, [])
    else
      let cmd := ["pyocd", "flash", hex_path, "-t", pyOr target defTarget, "-u",
          info.serial_number, "-f", pyOr frequency defFreq]
        ++ (match pack_path with
            | some p => if p = "" then [] else ["--pack", p]
            | none => [])
      let cmd_str := joinSpace cmd
      match outcome with
      | .completed rc out err =>
        (st, { success := decide (rc = 0), output := out, error := err,
               command := some cmd_str }, [FlashEff.runPyocd cmd])
      | .timedOut =>
        (st, { success := false, output := "", error := "Flash timeout (180s)",
               command := some cmd_str }, [FlashEff.runPyocd cmd])
      | .fileNotFound =>
        (st, { success := false, output := "",
               error := "pyocd nao encontrado. Verifique a instalacao.",
               command := some cmd_str }, [FlashEff.runPyocd cmd])
      | .raised msg =>
        (st, { success := false, output := "", error := msg,
               command := some cmd_str }, [FlashEff.runPyocd cmd])

def isRunPyocd : FlashEff → Bool
  | .runPyocd _ => true
  | _ => false

/-! ## Theorems for C2 and C10 -/

/-- C2 (amended): FlashManager.flash never calls pause_port or
resume_port on any path: every effect of every run is the single pyocd
invocation, so the serial reader is not paused during flashing. -/
theorem C2_flash_never_pauses (st : MgrState) (pid hex : String)
    (pack target freq : Option String) (dT dF : String) (oc : RunOutcome) :
    ((flash st pid hex pack target freq dT dF oc).2.2).all isRunPyocd = true := by
  cases h : lookupPort pid st.ports with
  | none => simp [flash, h]
  | some info =>
    by_cases hs : info.serial_number = ""
    · simp [flash, h, hs]
    · cases oc <;> simp [flash, h, hs, isRunPyocd]

/-- Counterexample to C2 as stated: a concrete flash on a registered
port with a serial number invokes pyocd, and its entire effect trace is
that single invocation — no pause_port call before it and no
resume_port call after it, on this (successful) exit path. -/
theorem C2_counterexample :
    (flash ⟨[("SN42", ⟨"/dev/ttyACM0", "probe", "SN42", true⟩)], fun _ => false, []⟩
        "SN42" "fw.hex" none none none "EFR32FG28B322F1024IM48" "20M"
        (RunOutcome.completed 0 "" "")).2.2
      = [FlashEff.runPyocd ["pyocd", "flash", "fw.hex", "-t", "EFR32FG28B322F1024IM48",
          "-u", "SN42", "-f", "20M"]] := by
  rfl

/-- C10: for a port id absent from the registry, or present with an
empty serial number, flash fails with a non-empty error message, never
invokes pyocd, and leaves the whole serial-manager state unchanged. -/
theorem C10_flash_validates_first (st : MgrState) (pid hex : String)
    (pack target freq : Option String) (dT dF : String) (oc : RunOutcome)
    (h : lookupPort pid st.ports = none
      ∨ ∃ info, lookupPort pid st.ports = some info ∧ info.serial_number = "") :
    (flash st pid hex pack target freq dT dF oc).2.1.success = false
    ∧ (flash st pid hex pack target freq dT dF oc).2.1.error ≠ ""
    ∧ (flash st pid hex pack target freq dT dF oc).2.2 = []
    ∧ (flash st pid hex pack target freq dT dF oc).1 = st := by
  rcases h with h | ⟨info, h, hs⟩
  · refine ⟨by simp [flash, h], ?_, by simp [flash, h], by simp [flash, h]⟩
    simp only [flash, h]
    intro hc
    have hlen := congrArg String.length hc
    rw [String.length_append, String.length_append] at hlen
    rw [show "Porta ".length = 6 from rfl, show " nao encontrada".length = 15 from rfl,
      show "".length = 0 from rfl] at hlen
    omega
  · refine ⟨by simp [flash, h, hs], ?_, by simp [flash, h, hs], by simp [flash, h, hs]⟩
    simp only [flash, h, if_pos hs]
    intro hc
    have hlen := congrArg String.length hc
    rw [String.length_append, String.length_append] at hlen
    rw [show "Sem serial number para ".length = 23 from rfl,
      show ". Nao e possivel identificar o probe.".length = 37 from rfl,
      show "".length = 0 from rfl] at hlen
    omega

/-- Closed instance of C10: flash of an unknown port id on an empty
registry fails without running pyocd and without touching the state. -/
theorem C10_witness :
    (flash ⟨[], fun _ => false, []⟩ "p9" "fw.hex" none none none "T" "20M"
        RunOutcome.timedOut).2.1.success = false
    ∧ (flash ⟨[], fun _ => false, []⟩ "p9" "fw.hex" none none none "T" "20M"
        RunOutcome.timedOut).2.1.error ≠ ""
    ∧ (flash ⟨[], fun _ => false, []⟩ "p9" "fw.hex" none none none "T" "20M"
        RunOutcome.timedOut).2.2 = []
    ∧ (flash ⟨[], fun _ => false, []⟩ "p9" "fw.hex" none none none "T" "20M"
        RunOutcome.timedOut).1 = ⟨[], fun _ => false, []⟩ :=
  C10_flash_validates_first ⟨[], fun _ => false, []⟩ "p9" "fw.hex" none none none "T" "20M"
    RunOutcome.timedOut (Or.inl rfl)

/-! ## The reader loop

Source (serial_manager.py, lines 93-219): one iteration of the outer
while loop of SerialManager._read_serial. The embedding turns the
iteration into a function from a scenario — which of the disjoint paths
the environment drives the body through — to the chronological list of
its observable effects. The scenarios cover every path of the body:

  * pausedAtTop: the pause flag was set (lines 99-122), with or without
    a pending acknowledge event;
  * pathMissing: os.path.exists(device) is false (lines 128-132);
  * openFail: serial.Serial raised (caught at lines 200-207);
  * runCase: the device opened; the inner loop runs a list of read
    cycles (the bytes delivered by each ser.read) and then ends by the
    pause-flag break, by the running flag turning false, or by a raised
    serial/other exception.

Exceptions are modeled by the scenario outcome: each except clause
yields its setConnected false marking and its backoff sleep, the
finally clause yields the close effects for whatever handles were
opened, and the function totally returns an effect list in every case —
no exception propagates out of the loop body. Timestamps and dates are
oracles indexed by the order of the datetime.now() calls (one index per
extracted line; index 0 for the announcement of the path taken). The
periodic 0.5 s flush of the log handle is not recorded (the claims
track appends, not flushes). -/

inductive Fault where
  | serialExc
  | otherExc
deriving DecidableEq

inductive EndEv where
  | pauseBreak
  | stopRun
  | errEnd (f : Fault)
deriving DecidableEq

inductive Scen where
  | pausedAtTop (hasAck : Bool)
  | pathMissing
  | openFail (f : Fault)
  | runCase (cycles : List (List Nat)) (endEv : EndEv)

inductive Eff where
  | setConnected (b : Bool)
  | ackSet
  | notifyLine (s : String)
  | appendLine (s : String)
  | sleepSec (n : Nat)
  | waitResume
  | openLog (date : String)
  | closeLog
  | openSer
  | closeSer
deriving DecidableEq

/-- Latin-1 decoding of a framed byte line to the Python string. -/
def latin1Str (bs : List Nat) : String := String.mk (bs.map Char.ofNat)

/-- Synthetic connect announcement (line 141 of the source). -/
def connectAnnounce (device ts : String) : String :=
  "[" ++ ts ++ "] \x1b[92m--- Conectado em " ++ device ++ " ---\x1b[0m"

/-- Synthetic paused announcement (line 110 of the source). -/
def pausedAnnounce (ts : String) : String :=
  "[" ++ ts ++ "] \x1b[93m--- Serial pausada (flash em andamento) ---\x1b[0m"

/-- Synthetic resumed announcement (line 120 of the source). -/
def resumedAnnounce (ts : String) : String :=
  "[" ++ ts ++ "] \x1b[92m--- Serial retomada ---\x1b[0m"

/-- Timestamped log entry, f-string bracket-ts-space-line. -/
def logEntryStr (ts line : String) : String := "[" ++ ts ++ "] " ++ line

/-- Daily rotation effects before a write: when the write-time date
differs from the date of the open handle, close it (if any) and open
the day file in append mode. -/
def rotEffs (curDate : Option String) (today : String) : List Eff :=
  if some today = curDate then []
  else (match curDate with | some _ => [Eff.closeLog] | none => []) ++ [Eff.openLog today]

/-- Per-line processing of the extracted lines of one read cycle:
timestamp, rotate if the date changed, append; returns the effects, the
entries in order (collected for the deferred notification), the next
oracle index and the date of the open log handle. -/
def writeLines (tsOf dateOf : Nat → String) :
    List String → Nat → Option String → List Eff × List String × Nat × Option String
  | [], k, cd => ([], [], k, cd)
  | line :: rest, k, cd =>
    match writeLines tsOf dateOf rest (k + 1) (some (dateOf k)) with
    | (effs, entries, k2, cd2) =>
      (rotEffs cd (dateOf k) ++ [Eff.appendLine (logEntryStr (tsOf k) line)] ++ effs,
       logEntryStr (tsOf k) line :: entries, k2, cd2)

/-- The inner read loop: each cycle appends the received bytes to the
carried buffer, frames the complete lines, writes them all, and only
then notifies the subscribers of each entry, in order. -/
def runCyclesGo (tsOf dateOf : Nat → String) :
    List (List Nat) → List Nat → Nat → Option String → List Eff × Option String
  | [], _, _, cd => ([], cd)
  | bytes :: restCycles, buf, k, cd =>
    match extractLines (buf ++ bytes) with
    | (raw, buf2) =>
      match writeLines tsOf dateOf (raw.map latin1Str) k cd with
      | (weffs, entries, k2, cd2) =>
        match runCyclesGo tsOf dateOf restCycles buf2 k2 cd2 with
        | (reffs, cdF) =>
          (weffs ++ entries.map Eff.notifyLine ++ reffs, cdF)

/-- Backoff of the two except clauses: 3 s for serial.SerialException,
5 s for any other exception. -/
def faultSleep : Fault → Nat
  | .serialExc => 3
  | .otherExc => 5

/-- The finally clause closes the log handle when one is open. -/
def closeLogEffs : Option String → List Eff
  | some _ => [Eff.closeLog]
  | none => []

/-- End of the inner loop: the break and stop paths fall through to the
finally clause; an exception first runs its except clause (mark
disconnected, back off) and then the finally clause. -/
def endEffs : EndEv → Option String → List Eff
  | .pauseBreak, cd => closeLogEffs cd ++ [Eff.closeSer]
  | .stopRun, cd => closeLogEffs cd ++ [Eff.closeSer]
  | .errEnd f, cd =>
    [Eff.setConnected false, Eff.sleepSec (faultSleep f)] ++ closeLogEffs cd ++ [Eff.closeSer]

/-- One iteration of the outer reader loop as its effect trace. -/
def readIter (device : String) (tsOf dateOf : Nat → String) : Scen → List Eff
  | .pausedAtTop hasAck =>
    [Eff.setConnected false] ++ (if hasAck then [Eff.ackSet] else [])
      ++ [Eff.notifyLine (pausedAnnounce (tsOf 0)), Eff.waitResume,
          Eff.notifyLine (resumedAnnounce (tsOf 1))]
  | .pathMissing => [Eff.setConnected false, Eff.sleepSec 2]
  | .openFail f => [Eff.setConnected false, Eff.sleepSec (faultSleep f)]
  | .runCase cycles endEv =>
    [Eff.openSer, Eff.setConnected true, Eff.notifyLine (connectAnnounce device (tsOf 0))]
      ++ (match runCyclesGo tsOf dateOf cycles [] 1 none with
          | (effs, cd) => effs ++ endEffs endEv cd)

/-! ## Theorems for C7 -/

def sleepsOf (evs : List Eff) : List Nat :=
  evs.filterMap fun e => match e with | Eff.sleepSec n => some n | _ => none

/-- Spec-side backoff table: 2 s for a missing path, 3 s for a
serial-layer error, 5 s for an unclassified error, no backoff
otherwise. -/
def expectedSleeps : Scen → List Nat
  | .pausedAtTop _ => []
  | .pathMissing => [2]
  | .openFail Fault.serialExc => [3]
  | .openFail Fault.otherExc => [5]
  | .runCase _ EndEv.pauseBreak => []
  | .runCase _ EndEv.stopRun => []
  | .runCase _ (EndEv.errEnd Fault.serialExc) => [3]
  | .runCase _ (EndEv.errEnd Fault.otherExc) => [5]

/-- Scenarios in which the body took a failure path. -/
def isFaultScen : Scen → Bool
  | .pathMissing => true
  | .openFail _ => true
  | .runCase _ (EndEv.errEnd _) => true
  | _ => false

theorem sleepsOf_append (a b : List Eff) : sleepsOf (a ++ b) = sleepsOf a ++ sleepsOf b :=
  List.filterMap_append a b _

theorem sleepsOf_rotEffs (cd : Option String) (d : String) : sleepsOf (rotEffs cd d) = [] := by
  unfold rotEffs
  split
  · rfl
  · cases cd <;> rfl

theorem sleepsOf_notifies (entries : List String) :
    sleepsOf (entries.map Eff.notifyLine) = [] := by
  induction entries with
  | nil => rfl
  | cons e rest ih =>
    simp only [sleepsOf, List.map_cons, List.filterMap_cons] at ih ⊢
    exact ih

theorem writeLines_cons_eq (tsOf dateOf : Nat → String) (line : String) (rest : List String)
    (k : Nat) (cd : Option String) (effs : List Eff) (entries : List String) (k2 : Nat)
    (cd2 : Option String)
    (heq : writeLines tsOf dateOf rest (k + 1) (some (dateOf k)) = (effs, entries, k2, cd2)) :
    writeLines tsOf dateOf (line :: rest) k cd
      = (rotEffs cd (dateOf k) ++ [Eff.appendLine (logEntryStr (tsOf k) line)] ++ effs,
         logEntryStr (tsOf k) line :: entries, k2, cd2) := by
  unfold writeLines
  simp only [heq]

theorem runCyclesGo_cons_eq (tsOf dateOf : Nat → String) (bytes : List Nat)
    (restCycles : List (List Nat)) (buf : List Nat) (k : Nat) (cd : Option String)
    (raw : List (List Nat)) (buf2 : List Nat) (weffs : List Eff) (entries : List String)
    (k2 : Nat) (cd2 : Option String) (reffs : List Eff) (cdF : Option String)
    (hre : extractLines (buf ++ bytes) = (raw, buf2))
    (hwl : writeLines tsOf dateOf (raw.map latin1Str) k cd = (weffs, entries, k2, cd2))
    (hrc : runCyclesGo tsOf dateOf restCycles buf2 k2 cd2 = (reffs, cdF)) :
    runCyclesGo tsOf dateOf (bytes :: restCycles) buf k cd
      = (weffs ++ entries.map Eff.notifyLine ++ reffs, cdF) := by
  unfold runCyclesGo
  simp only [hre, hwl, hrc]

theorem sleepsOf_writeLines (tsOf dateOf : Nat → String) :
    ∀ (lines : List String) (k : Nat) (cd : Option String),
      sleepsOf (writeLines tsOf dateOf lines k cd).1 = [] := by
  intro lines
  induction lines with
  | nil => intro k cd; rfl
  | cons line rest ih =>
    intro k cd
    rcases hw : writeLines tsOf dateOf rest (k + 1) (some (dateOf k)) with ⟨effs, entries, k2, cd2⟩
    rw [writeLines_cons_eq tsOf dateOf line rest k cd effs entries k2 cd2 hw]
    show sleepsOf (rotEffs cd (dateOf k)
      ++ [Eff.appendLine (logEntryStr (tsOf k) line)] ++ effs) = []
    have h1 : sleepsOf effs = [] := by
      have h := ih (k + 1) (some (dateOf k))
      rw [hw] at h
      exact h
    rw [sleepsOf_append, sleepsOf_append, sleepsOf_rotEffs, h1]
    rfl

theorem sleepsOf_runCycles (tsOf dateOf : Nat → String) :
    ∀ (cycles : List (List Nat)) (buf : List Nat) (k : Nat) (cd : Option String),
      sleepsOf (runCyclesGo tsOf dateOf cycles buf k cd).1 = [] := by
  intro cycles
  induction cycles with
  | nil => intro buf k cd; rfl
  | cons bytes rest ih =>
    intro buf k cd
    rcases he : extractLines (buf ++ bytes) with ⟨raw, buf2⟩
    rcases hw : writeLines tsOf dateOf (raw.map latin1Str) k cd with ⟨weffs, entries, k2, cd2⟩
    rcases hr : runCyclesGo tsOf dateOf rest buf2 k2 cd2 with ⟨reffs, cdF⟩
    rw [runCyclesGo_cons_eq tsOf dateOf bytes rest buf k cd raw buf2 weffs entries k2 cd2
      reffs cdF he hw hr]
    show sleepsOf (weffs ++ entries.map Eff.notifyLine ++ reffs) = []
    have h1 : sleepsOf weffs = [] := by
      have h := sleepsOf_writeLines tsOf dateOf (raw.map latin1Str) k cd
      rw [hw] at h
      exact h
    have h2 : sleepsOf reffs = [] := by
      have h := ih buf2 k2 cd2
      rw [hr] at h
      exact h
    rw [sleepsOf_append, sleepsOf_append, sleepsOf_notifies, h1, h2]
    rfl

theorem writeLines_cd_isSome (tsOf dateOf : Nat → String) :
    ∀ (lines : List String) (k : Nat) (cd : Option String),
      cd.isSome = true → (writeLines tsOf dateOf lines k cd).2.2.2.isSome = true := by
  intro lines
  induction lines with
  | nil => intro k cd h; exact h
  | cons line rest ih =>
    intro k cd _
    rcases hw : writeLines tsOf dateOf rest (k + 1) (some (dateOf k)) with ⟨effs, entries, k2, cd2⟩
    rw [writeLines_cons_eq tsOf dateOf line rest k cd effs entries k2 cd2 hw]
    show cd2.isSome = true
    have h2 := ih (k + 1) (some (dateOf k)) rfl
    rw [hw] at h2
    exact h2

theorem writeLines_openLog (tsOf dateOf : Nat → String) :
    ∀ (lines : List String) (k : Nat) (cd : Option String) (d : String),
      Eff.openLog d ∈ (writeLines tsOf dateOf lines k cd).1 →
      (writeLines tsOf dateOf lines k cd).2.2.2.isSome = true := by
  intro lines
  cases lines with
  | nil => intro k cd d h; simp [writeLines] at h
  | cons line rest =>
    intro k cd d _
    rcases hw : writeLines tsOf dateOf rest (k + 1) (some (dateOf k)) with ⟨effs, entries, k2, cd2⟩
    rw [writeLines_cons_eq tsOf dateOf line rest k cd effs entries k2 cd2 hw]
    show cd2.isSome = true
    have h2 := writeLines_cd_isSome tsOf dateOf rest (k + 1) (some (dateOf k)) rfl
    rw [hw] at h2
    exact h2

theorem runCycles_cd_isSome (tsOf dateOf : Nat → String) :
    ∀ (cycles : List (List Nat)) (buf : List Nat) (k : Nat) (cd : Option String),
      cd.isSome = true → (runCyclesGo tsOf dateOf cycles buf k cd).2.isSome = true := by
  intro cycles
  induction cycles with
  | nil => intro buf k cd h; exact h
  | cons bytes rest ih =>
    intro buf k cd h
    rcases he : extractLines (buf ++ bytes) with ⟨raw, buf2⟩
    rcases hw : writeLines tsOf dateOf (raw.map latin1Str) k cd with ⟨weffs, entries, k2, cd2⟩
    rcases hr : runCyclesGo tsOf dateOf rest buf2 k2 cd2 with ⟨reffs, cdF⟩
    rw [runCyclesGo_cons_eq tsOf dateOf bytes rest buf k cd raw buf2 weffs entries k2 cd2
      reffs cdF he hw hr]
    show cdF.isSome = true
    have h1 := writeLines_cd_isSome tsOf dateOf (raw.map latin1Str) k cd h
    rw [hw] at h1
    have h2 := ih buf2 k2 cd2 h1
    rw [hr] at h2
    exact h2

theorem runCycles_openLog (tsOf dateOf : Nat → String) :
    ∀ (cycles : List (List Nat)) (buf : List Nat) (k : Nat) (cd : Option String) (d : String),
      Eff.openLog d ∈ (runCyclesGo tsOf dateOf cycles buf k cd).1 →
      (runCyclesGo tsOf dateOf cycles buf k cd).2.isSome = true := by
  intro cycles
  induction cycles with
  | nil => intro buf k cd d h; simp [runCyclesGo] at h
  | cons bytes rest ih =>
    intro buf k cd d h
    rcases he : extractLines (buf ++ bytes) with ⟨raw, buf2⟩
    rcases hw : writeLines tsOf dateOf (raw.map latin1Str) k cd with ⟨weffs, entries, k2, cd2⟩
    rcases hr : runCyclesGo tsOf dateOf rest buf2 k2 cd2 with ⟨reffs, cdF⟩
    rw [runCyclesGo_cons_eq tsOf dateOf bytes rest buf k cd raw buf2 weffs entries k2 cd2
      reffs cdF he hw hr] at h ⊢
    show cdF.isSome = true
    replace h : Eff.openLog d ∈ weffs ++ entries.map Eff.notifyLine ++ reffs := h
    simp only [List.mem_append] at h
    rcases h with (h | h) | h
    · have h1 := writeLines_openLog tsOf dateOf (raw.map latin1Str) k cd d (by rw [hw]; exact h)
      rw [hw] at h1
      have h2 := runCycles_cd_isSome tsOf dateOf rest buf2 k2 cd2 h1
      rw [hr] at h2
      exact h2
    · exact absurd h (by simp)
    · have h2 := ih buf2 k2 cd2 d (by rw [hr]; exact h)
      rw [hr] at h2
      exact h2

theorem readIter_runCase_eq (device : String) (tsOf dateOf : Nat → String)
    (cycles : List (List Nat)) (endEv : EndEv) (effs : List Eff) (cd : Option String)
    (h : runCyclesGo tsOf dateOf cycles [] 1 none = (effs, cd)) :
    readIter device tsOf dateOf (Scen.runCase cycles endEv)
      = [Eff.openSer, Eff.setConnected true,
          Eff.notifyLine (connectAnnounce device (tsOf 0))]
        ++ (effs ++ endEffs endEv cd) := by
  unfold readIter
  simp only [h]

theorem closeLog_mem_endEffs (e : EndEv) (cd : Option String) (h : cd.isSome = true) :
    Eff.closeLog ∈ endEffs e cd := by
  cases cd with
  | none => simp at h
  | some d => cases e <;> simp [endEffs, closeLogEffs]

theorem openLog_not_mem_endEffs (e : EndEv) (cd : Option String) (d : String) :
    Eff.openLog d ∉ endEffs e cd := by
  cases e <;> cases cd <;> simp [endEffs, closeLogEffs]

/-- C7: every failure of the reader-loop body is classified and
retried, never propagated: a missing device path backs off 2 seconds, a
serial-layer exception 3 seconds, any other exception 5 seconds (and
these are the only sleeps of an iteration); each failure marks the port
disconnected; on every exit of a connected run the device handle is
closed and any opened log handle is closed, in the guaranteed cleanup
step; and the iteration is a total function into effect traces, so no
exception escapes the loop. -/
theorem C7_fault_classification (device : String) (tsOf dateOf : Nat → String) (sc : Scen) :
    sleepsOf (readIter device tsOf dateOf sc) = expectedSleeps sc
    ∧ (isFaultScen sc = true → Eff.setConnected false ∈ readIter device tsOf dateOf sc)
    ∧ (∀ cycles endEv, sc = Scen.runCase cycles endEv →
        Eff.closeSer ∈ readIter device tsOf dateOf sc
        ∧ ∀ d, Eff.openLog d ∈ readIter device tsOf dateOf sc →
            Eff.closeLog ∈ readIter device tsOf dateOf sc) := by
  cases sc with
  | pausedAtTop hasAck =>
    refine ⟨by cases hasAck <;> rfl, fun h => by simp [isFaultScen] at h,
      fun c e h => Scen.noConfusion h⟩
  | pathMissing =>
    exact ⟨rfl, fun _ => by simp [readIter], fun c e h => Scen.noConfusion h⟩
  | openFail f =>
    refine ⟨by cases f <;> rfl, fun _ => by simp [readIter], fun c e h => Scen.noConfusion h⟩
  | runCase cycles endEv =>
    rcases hr : runCyclesGo tsOf dateOf cycles [] 1 none with ⟨effs, cd⟩
    rw [readIter_runCase_eq device tsOf dateOf cycles endEv effs cd hr]
    have hsl : sleepsOf effs = [] := by
      have h := sleepsOf_runCycles tsOf dateOf cycles [] 1 none
      rw [hr] at h
      exact h
    refine ⟨?_, ?_, ?_⟩
    · rw [sleepsOf_append, sleepsOf_append, hsl]
      cases endEv with
      | pauseBreak => cases cd <;> rfl
      | stopRun => cases cd <;> rfl
      | errEnd f => cases f <;> cases cd <;> rfl
    · intro hf
      cases endEv with
      | pauseBreak => simp [isFaultScen] at hf
      | stopRun => simp [isFaultScen] at hf
      | errEnd f => simp [endEffs]
    · intro c e _
      constructor
      · cases endEv <;> simp [endEffs, closeLogEffs]
      · intro d hd
        simp only [List.mem_append] at hd
        rcases hd with h3 | h4 | h5
        · simp at h3
        · have h1 : cd.isSome = true := by
            have h := runCycles_openLog tsOf dateOf cycles [] 1 none d (by rw [hr]; exact h4)
            rw [hr] at h
            exact h
          have h2 := closeLog_mem_endEffs endEv cd h1
          simp [h2]
        · exact absurd h5 (openLog_not_mem_endEffs endEv cd d)

/-- Closed instance of C7: a serial-layer failure after one read cycle
backs off exactly 3 seconds, marks the port disconnected and closes the
device handle. -/
theorem C7_witness :
    sleepsOf (readIter "d" (fun _ => "T") (fun _ => "D")
        (Scen.runCase [[104, 10]] (EndEv.errEnd Fault.serialExc))) = [3]
    ∧ Eff.setConnected false ∈ readIter "d" (fun _ => "T") (fun _ => "D")
        (Scen.runCase [[104, 10]] (EndEv.errEnd Fault.serialExc))
    ∧ Eff.closeSer ∈ readIter "d" (fun _ => "T") (fun _ => "D")
        (Scen.runCase [[104, 10]] (EndEv.errEnd Fault.serialExc)) := by
  have h := C7_fault_classification "d" (fun _ => "T") (fun _ => "D")
    (Scen.runCase [[104, 10]] (EndEv.errEnd Fault.serialExc))
  exact ⟨h.1, h.2.1 rfl, (h.2.2 [[104, 10]] (EndEv.errEnd Fault.serialExc) rfl).1⟩

/-! ## Theorems for C1 -/

/-- The synthetic announcement lines that an iteration can deliver,
per scenario. -/
def announceSet (device : String) (tsOf : Nat → String) : Scen → List String
  | .pausedAtTop _ => [pausedAnnounce (tsOf 0), resumedAnnounce (tsOf 1)]
  | .runCase _ _ => [connectAnnounce device (tsOf 0)]
  | _ => []

/-- Ordering property of an effect trace: every line handed to a
subscriber is either one of the synthetic announcements or was appended
to the log strictly earlier in the trace. -/
def goodTrace (ann : List String) (evs : List Eff) : Prop :=
  ∀ j s, evs.get? j = some (Eff.notifyLine s) →
    s ∈ ann ∨ ∃ i, i < j ∧ evs.get? i = some (Eff.appendLine s)

theorem goodTrace_append (ann : List String) (a b : List Eff)
    (ha : goodTrace ann a) (hb : goodTrace ann b) : goodTrace ann (a ++ b) := by
  intro j s hj
  by_cases hlt : j < a.length
  · rw [List.get?_append hlt] at hj
    rcases ha j s hj with h | ⟨i, hi, hget⟩
    · exact Or.inl h
    · refine Or.inr ⟨i, hi, ?_⟩
      rw [List.get?_append (lt_trans hi hlt)]
      exact hget
  · push_neg at hlt
    rw [List.get?_append_right hlt] at hj
    rcases hb (j - a.length) s hj with h | ⟨i, hi, hget⟩
    · exact Or.inl h
    · refine Or.inr ⟨a.length + i, by omega, ?_⟩
      rw [List.get?_append_right (by omega), show a.length + i - a.length = i from by omega]
      exact hget

theorem goodTrace_of_mem_ann (ann : List String) (evs : List Eff)
    (h : ∀ s, Eff.notifyLine s ∈ evs → s ∈ ann) : goodTrace ann evs := by
  intro j s hj
  exact Or.inl (h s (List.get?_mem hj))

theorem notify_not_mem_rotEffs (cd : Option String) (d s : String) :
    Eff.notifyLine s ∉ rotEffs cd d := by
  unfold rotEffs
  split
  · simp
  · cases cd <;> simp

theorem writeLines_no_notify (tsOf dateOf : Nat → String) :
    ∀ (lines : List String) (k : Nat) (cd : Option String) (s : String),
      Eff.notifyLine s ∉ (writeLines tsOf dateOf lines k cd).1 := by
  intro lines
  induction lines with
  | nil => intro k cd s h; simp [writeLines] at h
  | cons line rest ih =>
    intro k cd s h
    rcases hw : writeLines tsOf dateOf rest (k + 1) (some (dateOf k)) with ⟨effs, entries, k2, cd2⟩
    rw [writeLines_cons_eq tsOf dateOf line rest k cd effs entries k2 cd2 hw] at h
    replace h : Eff.notifyLine s ∈ rotEffs cd (dateOf k)
        ++ [Eff.appendLine (logEntryStr (tsOf k) line)] ++ effs := h
    simp only [List.mem_append] at h
    rcases h with (h | h) | h
    · exact notify_not_mem_rotEffs cd (dateOf k) s h
    · simp at h
    · have h2 := ih (k + 1) (some (dateOf k)) s
      rw [hw] at h2
      exact h2 h

theorem writeLines_append_mem (tsOf dateOf : Nat → String) :
    ∀ (lines : List String) (k : Nat) (cd : Option String) (e : String),
      e ∈ (writeLines tsOf dateOf lines k cd).2.1 →
      Eff.appendLine e ∈ (writeLines tsOf dateOf lines k cd).1 := by
  intro lines
  induction lines with
  | nil => intro k cd e h; simp [writeLines] at h
  | cons line rest ih =>
    intro k cd e h
    rcases hw : writeLines tsOf dateOf rest (k + 1) (some (dateOf k)) with ⟨effs, entries, k2, cd2⟩
    rw [writeLines_cons_eq tsOf dateOf line rest k cd effs entries k2 cd2 hw] at h ⊢
    replace h : e ∈ logEntryStr (tsOf k) line :: entries := h
    show Eff.appendLine e ∈ rotEffs cd (dateOf k)
      ++ [Eff.appendLine (logEntryStr (tsOf k) line)] ++ effs
    rcases List.mem_cons.mp h with rfl | h2
    · simp
    · have h3 := ih (k + 1) (some (dateOf k)) e
      rw [hw] at h3
      simp only [List.mem_append]
      exact Or.inr (h3 h2)

theorem goodTrace_block (ann : List String) (weffs : List Eff) (entries : List String)
    (hnn : ∀ s, Eff.notifyLine s ∉ weffs)
    (happ : ∀ e ∈ entries, Eff.appendLine e ∈ weffs) :
    goodTrace ann (weffs ++ entries.map Eff.notifyLine) := by
  intro j s hj
  by_cases hlt : j < weffs.length
  · rw [List.get?_append hlt] at hj
    exact absurd (List.get?_mem hj) (hnn s)
  · push_neg at hlt
    rw [List.get?_append_right hlt, List.get?_map] at hj
    rcases Option.map_eq_some'.mp hj with ⟨e, hget, heq⟩
    have hes : e = s := by injection heq
    subst hes
    have hmem : e ∈ entries := List.get?_mem hget
    rcases List.get?_of_mem (happ e hmem) with ⟨i, hi⟩
    have hilt : i < weffs.length := by
      rcases List.get?_eq_some.mp hi with ⟨hlen, _⟩
      exact hlen
    refine Or.inr ⟨i, lt_of_lt_of_le hilt hlt, ?_⟩
    rw [List.get?_append hilt]
    exact hi

theorem goodTrace_runCycles (ann : List String) (tsOf dateOf : Nat → String) :
    ∀ (cycles : List (List Nat)) (buf : List Nat) (k : Nat) (cd : Option String),
      goodTrace ann (runCyclesGo tsOf dateOf cycles buf k cd).1 := by
  intro cycles
  induction cycles with
  | nil => intro buf k cd j s hj; simp [runCyclesGo] at hj
  | cons bytes rest ih =>
    intro buf k cd
    rcases he : extractLines (buf ++ bytes) with ⟨raw, buf2⟩
    rcases hw : writeLines tsOf dateOf (raw.map latin1Str) k cd with ⟨weffs, entries, k2, cd2⟩
    rcases hr : runCyclesGo tsOf dateOf rest buf2 k2 cd2 with ⟨reffs, cdF⟩
    rw [runCyclesGo_cons_eq tsOf dateOf bytes rest buf k cd raw buf2 weffs entries k2 cd2
      reffs cdF he hw hr]
    show goodTrace ann (weffs ++ entries.map Eff.notifyLine ++ reffs)
    apply goodTrace_append
    · apply goodTrace_block
      · intro s hs
        have h2 := writeLines_no_notify tsOf dateOf (raw.map latin1Str) k cd s
        rw [hw] at h2
        exact h2 hs
      · intro e hemem
        have h2 := writeLines_append_mem tsOf dateOf (raw.map latin1Str) k cd e
        rw [hw] at h2
        exact h2 hemem
    · have h2 := ih buf2 k2 cd2
      rw [hr] at h2
      exact h2

theorem goodTrace_endEffs (ann : List String) (e : EndEv) (cd : Option String) :
    goodTrace ann (endEffs e cd) := by
  intro j s hj
  have hmem := List.get?_mem hj
  cases e <;> cases cd <;> simp [endEffs, closeLogEffs] at hmem

/-- C1 (amended): within one reader-loop iteration, every line handed
to a subscriber callback is either one of the synthetic connect, paused
or resumed announcement lines of that iteration, or a data log entry
that was appended to the log file strictly earlier in the effect trace;
in particular a live-stream reader never observes a data line before it
is appended. The synthetic announcements themselves are delivered
without being appended (see the counterexample to the original claim). -/
theorem C1_notify_after_append (device : String) (tsOf dateOf : Nat → String) (sc : Scen) :
    goodTrace (announceSet device tsOf sc) (readIter device tsOf dateOf sc) := by
  cases sc with
  | pausedAtTop hasAck =>
    apply goodTrace_of_mem_ann
    intro s hs
    cases hasAck <;> simp [readIter, announceSet] at hs ⊢ <;> tauto
  | pathMissing =>
    apply goodTrace_of_mem_ann
    intro s hs
    simp [readIter] at hs
  | openFail f =>
    apply goodTrace_of_mem_ann
    intro s hs
    simp [readIter] at hs
  | runCase cycles endEv =>
    rcases hr : runCyclesGo tsOf dateOf cycles [] 1 none with ⟨effs, cd⟩
    rw [readIter_runCase_eq device tsOf dateOf cycles endEv effs cd hr]
    apply goodTrace_append
    · apply goodTrace_of_mem_ann
      intro s hs
      simp only [announceSet, List.mem_singleton]
      simp at hs
      exact hs
    · apply goodTrace_append
      · have h2 := goodTrace_runCycles (announceSet device tsOf (Scen.runCase cycles endEv))
          tsOf dateOf cycles [] 1 none
        rw [hr] at h2
        exact h2
      · exact goodTrace_endEffs _ endEv cd

/-- Closed instance of C1: in the iteration that receives the bytes of
"hi" and a newline, the notification of the entry at index 5 of the
trace is preceded by its append (the theorem yields an append of the
same entry at an index below 5; it is in fact index 4). -/
theorem C1_witness :
    ∃ i, i < 5 ∧ (readIter "d" (fun _ => "T") (fun _ => "D")
        (Scen.runCase [[104, 105, 10]] EndEv.stopRun)).get? i
      = some (Eff.appendLine "[T] hi") := by
  have h := C1_notify_after_append "d" (fun _ => "T") (fun _ => "D")
    (Scen.runCase [[104, 105, 10]] EndEv.stopRun) 5 "[T] hi" (by decide)
  exact h.resolve_left (by decide)

/-- Counterexample to C1 as stated: the synthetic connect announcement
is delivered to subscribers but never appended to the log — the
iteration trace contains its notification and no append of it. -/
theorem C1_counterexample :
    Eff.notifyLine (connectAnnounce "d" "T")
        ∈ readIter "d" (fun _ => "T") (fun _ => "D") (Scen.runCase [] EndEv.stopRun)
    ∧ Eff.appendLine (connectAnnounce "d" "T")
        ∉ readIter "d" (fun _ => "T") (fun _ => "D") (Scen.runCase [] EndEv.stopRun) := by
  exact ⟨by decide, by decide⟩

end Datalogger
